import Mathlib

/-!
Verification of `gpflow/training/scipy.py` (`ScipyOptimizer`).

A parameter tensor is modelled as its shape (a list of dimension sizes)
together with its stored values in row-major flat order; reshaping to one
dimension is then the identity on the stored values, and `tf.concat` is
list append.  Mutation of the tensors captured by the evaluation closure is
modelled by explicit state passing of the tensor list.  Exceptions are
modelled with `Except`.
-/

namespace GPflowScipy

/-- Scalar values stored in tensors (numeric entries). -/
abbrev Val := Int

/-- A tensor: its shape and its values in row-major flat order. -/
structure Tensor where
  shape : List Nat
  data : List Val
deriving DecidableEq, Repr

/-- `np.prod(shape)`: the element count dictated by a tensor's shape. -/
def tensorSize (t : Tensor) : Nat := t.shape.prod

/-- A tensor actually stores as many values as its shape dictates. -/
def WellFormed (t : Tensor) : Prop := t.data.length = tensorSize t

instance (t : Tensor) : Decidable (WellFormed t) :=
  inferInstanceAs (Decidable (t.data.length = tensorSize t))

/-- Sum of the element counts of a list of tensors. -/
def totalSize (ts : List Tensor) : Nat := (ts.map tensorSize).sum

/-- `ScipyOptimizer.pack_tensors`: reshape each tensor to one dimension
(the identity on the stored flat data) and concatenate in order. -/
def pack_tensors (tensors : List Tensor) : List Val :=
  (tensors.map Tensor.data).foldr (fun a b => a ++ b) []

/-- `tf.reshape(vector, shape)`: succeeds iff the element counts agree,
producing a tensor of the requested shape holding the vector's values. -/
def reshape (vector : List Val) (shape : List Nat) : Option Tensor :=
  if vector.length = shape.prod then some ⟨shape, vector⟩ else none

/-- The loop body of `ScipyOptimizer.unpack_tensors`: for each target
tensor take the slice `from_vector[s : s + tensor_size]` (Python slicing
clamps at the end of the vector), reshape it to the tensor's shape
(`tf.reshape` raises when the slice is too short) and assign it; `s`
advances by the tensor's size. -/
def unpack_loop : List Tensor → List Val → Nat → Option (List Tensor)
  | [], _, _ => some []
  | t :: ts, from_vector, s =>
    let tensor_size := tensorSize t
    let tensor_vector := (from_vector.drop s).take tensor_size
    match reshape tensor_vector t.shape with
    | none => none
    | some t2 => (unpack_loop ts from_vector (s + tensor_size)).map (fun r => t2 :: r)

/-- `ScipyOptimizer.unpack_tensors`: slice the flat vector into contiguous
runs and overwrite each tensor in order; `none` models the TensorFlow
error raised when a slice cannot be reshaped. -/
def unpack_tensors (to_tensors : List Tensor) (from_vector : List Val) : Option (List Tensor) :=
  unpack_loop to_tensors from_vector 0

theorem pack_tensors_nil : pack_tensors [] = [] := rfl

theorem pack_tensors_cons (t : Tensor) (ts : List Tensor) :
    pack_tensors (t :: ts) = t.data ++ pack_tensors ts := rfl

theorem take_append_self (l r : List Val) : (l ++ r).take l.length = l := by
  simp

theorem drop_append_self (l r : List Val) : (l ++ r).drop l.length = r := by
  simp

/-- Unpacking at offset `s` only looks at `from_vector.drop s`; if that part
starts with exactly the packed data of well-formed tensors `ts`, the loop
reconstructs `ts` itself. -/
theorem unpack_loop_pack (ts : List Tensor) :
    ∀ (v rest : List Val) (s : Nat), (∀ t ∈ ts, WellFormed t) →
      v.drop s = pack_tensors ts ++ rest → unpack_loop ts v s = some ts := by
  induction ts with
  | nil => intro v rest s _ _; rfl
  | cons t ts ih =>
    intro v rest s hwf hdrop
    have hwt : WellFormed t := hwf t (List.mem_cons_self t ts)
    have hdrop2 : v.drop s = t.data ++ (pack_tensors ts ++ rest) := by
      rw [hdrop, pack_tensors_cons, List.append_assoc]
    have hslice : (v.drop s).take (tensorSize t) = t.data := by
      rw [hdrop2, ← hwt, take_append_self]
    have hresh : reshape ((v.drop s).take (tensorSize t)) t.shape = some t := by
      rw [hslice]
      unfold reshape
      rw [if_pos (show t.data.length = t.shape.prod from hwt)]
    have hnext : v.drop (s + tensorSize t) = pack_tensors ts ++ rest := by
      have : v.drop (s + tensorSize t) = (v.drop s).drop (tensorSize t) := by
        rw [List.drop_drop, Nat.add_comm]
      rw [this, hdrop2, ← hwt, drop_append_self]
    have hrec := ih v rest (s + tensorSize t)
      (fun u hu => hwf u (List.mem_cons_of_mem t hu)) hnext
    unfold unpack_loop
    simp only [hresh, hrec]
    rfl

/-- If the part of the vector from offset `s` on has at least `totalSize ts`
entries, the loop succeeds; the results keep the original shapes and pack
back to exactly the consumed prefix. -/
theorem unpack_loop_success (ts : List Tensor) :
    ∀ (v : List Val) (s : Nat), totalSize ts ≤ (v.drop s).length →
      ∃ us, unpack_loop ts v s = some us ∧
        us.map Tensor.shape = ts.map Tensor.shape ∧
        pack_tensors us = (v.drop s).take (totalSize ts) := by
  induction ts with
  | nil =>
    intro v s _
    exact ⟨[], rfl, rfl, rfl⟩
  | cons t ts ih =>
    intro v s hlen
    have htot : totalSize (t :: ts) = tensorSize t + totalSize ts := by
      unfold totalSize; simp
    rw [htot] at hlen
    have hsz : tensorSize t ≤ (v.drop s).length := le_trans (Nat.le_add_right _ _) hlen
    have hslicelen : ((v.drop s).take (tensorSize t)).length = tensorSize t := by
      rw [List.length_take]
      exact Nat.min_eq_left hsz
    have hresh : reshape ((v.drop s).take (tensorSize t)) t.shape
        = some ⟨t.shape, (v.drop s).take (tensorSize t)⟩ := by
      unfold reshape
      rw [if_pos (show ((v.drop s).take (tensorSize t)).length = t.shape.prod from hslicelen)]
    have hdropnext : v.drop (s + tensorSize t) = (v.drop s).drop (tensorSize t) := by
      rw [List.drop_drop, Nat.add_comm]
    have hlennext : totalSize ts ≤ (v.drop (s + tensorSize t)).length := by
      rw [hdropnext, List.length_drop]
      omega
    obtain ⟨us, hus, hshapes, hpack⟩ := ih v (s + tensorSize t) hlennext
    refine ⟨⟨t.shape, (v.drop s).take (tensorSize t)⟩ :: us, ?_, ?_, ?_⟩
    · unfold unpack_loop
      simp only [hresh, hus]
      rfl
    · simp [hshapes]
    · rw [pack_tensors_cons, hpack, hdropnext, htot]
      exact (List.take_add _ _ _).symm

/-- If the part of the vector from offset `s` on is strictly shorter than
`totalSize ts`, the loop fails (some slice is too short to reshape). -/
theorem unpack_loop_short (ts : List Tensor) :
    ∀ (v : List Val) (s : Nat), (v.drop s).length < totalSize ts →
      unpack_loop ts v s = none := by
  induction ts with
  | nil =>
    intro v s h
    exact absurd h (by simp [totalSize])
  | cons t ts ih =>
    intro v s hlen
    have htot : totalSize (t :: ts) = tensorSize t + totalSize ts := by
      unfold totalSize; simp
    rw [htot] at hlen
    by_cases hsz : tensorSize t ≤ (v.drop s).length
    · have hslicelen : ((v.drop s).take (tensorSize t)).length = tensorSize t := by
        rw [List.length_take]
        exact Nat.min_eq_left hsz
      have hresh : reshape ((v.drop s).take (tensorSize t)) t.shape
          = some ⟨t.shape, (v.drop s).take (tensorSize t)⟩ := by
        unfold reshape
        rw [if_pos (show ((v.drop s).take (tensorSize t)).length = t.shape.prod from hslicelen)]
      have hlennext : (v.drop (s + tensorSize t)).length < totalSize ts := by
        have : v.drop (s + tensorSize t) = (v.drop s).drop (tensorSize t) := by
          rw [List.drop_drop, Nat.add_comm]
        rw [this, List.length_drop]
        omega
      have hrec := ih v (s + tensorSize t) hlennext
      unfold unpack_loop
      simp only [hresh, hrec]
      rfl
    · have hlt : (v.drop s).length < tensorSize t := Nat.lt_of_not_le hsz
      have hslicelen : ((v.drop s).take (tensorSize t)).length = (v.drop s).length := by
        rw [List.length_take]
        exact Nat.min_eq_right (Nat.le_of_lt hlt)
      have hresh : reshape ((v.drop s).take (tensorSize t)) t.shape = none := by
        unfold reshape
        rw [if_neg]
        rw [hslicelen]
        exact Nat.ne_of_lt hlt
      unfold unpack_loop
      simp only [hresh]

/-- Errors (Python exceptions): the `ValueError` raised by `minimize`, the
TensorFlow error raised when a slice cannot be reshaped during unpacking,
and arbitrary exceptions raised by user code (closure or callback),
distinguished by a code. -/
inductive Err where
  | valueError (msg : String)
  | sizeMismatch
  | user (code : Nat)
deriving DecidableEq, Repr

/-- Observable side effects of one evaluation call: an invocation of the
step callback with the loss, the parameter tensors and the gradients. -/
inductive Event where
  | callbackCall (loss : Val) (vars : List Tensor) (grads : List Tensor)
deriving DecidableEq, Repr

/-- What `_eval` returns to the solver: the scalar loss (`loss.numpy()`)
and the gradients packed into one flat vector. -/
structure EvalOutcome where
  loss : Val
  grad_vector : List Val
deriving DecidableEq, Repr

/-- Modelled from the spec: `loss_gradients` is imported from
`gpflow.training.optimize`, which is not part of the sources; per the spec
it "invokes the loss/gradient computation against the now-updated
parameters", returning a scalar loss and one gradient tensor per
parameter.  We model the composition of `loss_gradients` with the
user-supplied closure as a single function of the current parameter
tensors that may raise. -/
abbrev LossGradFn := List Tensor → Except Err (Val × List Tensor)

/-- The `step_callback` argument of `minimize`: absent (`None`), a callable
observer, or some non-callable object. -/
inductive CbArg where
  | noCallback
  | callableCb (c : Val → List Tensor → List Tensor → Except Err Unit)
  | notCallable

/-- The `closure` argument of `minimize`: a callable loss/gradient closure
or some non-callable object. -/
inductive ClosureArg where
  | callableFn (f : LossGradFn)
  | notCallable

/-- `if callable(step_callback): step_callback(loss, vars, grads)`:
invoked only when the argument is callable, recording the invocation as an
event; its exceptions propagate. -/
def invoke_callback : CbArg → Val → List Tensor → List Tensor → Except Err (List Event)
  | CbArg.callableCb c, loss, vars, grads =>
    match c loss vars grads with
    | Except.ok _ => Except.ok [Event.callbackCall loss vars grads]
    | Except.error e => Except.error e
  | _, _, _, _ => Except.ok []

/-- `ScipyOptimizer.eval_func`'s inner `_eval`, with the mutation of the
captured `vars` made explicit: the state of the tensors enters as an
argument and the updated state is returned.  Each call unpacks `x` into
the tensors, computes loss and gradients on the updated tensors, invokes
the step callback if callable, and returns the loss with packed
gradients. -/
def eval_func (closure : LossGradFn) (step_callback : CbArg)
    (x : List Val) (vars : List Tensor) :
    Except Err (List Tensor × List Event × EvalOutcome) :=
  match unpack_tensors vars x with
  | none => Except.error Err.sizeMismatch
  | some vars2 =>
    match closure vars2 with
    | Except.error e => Except.error e
    | Except.ok (loss, grads) =>
      match invoke_callback step_callback loss vars2 grads with
      | Except.error e => Except.error e
      | Except.ok events =>
        Except.ok (vars2, events, ⟨loss, pack_tensors grads⟩)

/-- `ScipyOptimizer.initial_parameters`. -/
def initial_parameters (vars : List Tensor) : List Val :=
  pack_tensors vars

/-- The result object returned by `scipy.optimize.minimize`: the final
flattened parameter vector plus an abstract payload (status, iteration
counts, ...). -/
structure OptimizeResult where
  x : List Val
  info : Nat
deriving DecidableEq, Repr

/-- Keyword options forwarded verbatim to `scipy.optimize.minimize`. -/
abbrev ScipyKwargs := List (String × Int)

/-- The external solver: receives the evaluation function, the initial
flat vector, the `jac` flag, the forwarded options, and the current tensor
state, and returns its result object together with the tensor state left
behind by the evaluation calls it made. -/
abbrev Solver :=
  (List Val → List Tensor → Except Err (List Tensor × List Event × EvalOutcome)) →
    List Val → Bool → ScipyKwargs → List Tensor → OptimizeResult × List Tensor

/-- `ScipyOptimizer.minimize`: raises `ValueError` unless the closure is
callable, then packs the current tensor values into the initial vector and
delegates to the external solver with `jac=True` and the options forwarded
verbatim, returning the solver's result unmodified (paired with the tensor
state the solver's evaluation calls left behind). -/
def minimize (closure : ClosureArg) (vars : List Tensor)
    (step_callback : CbArg) (scipy_kwargs : ScipyKwargs) (solver : Solver) :
    Except Err (OptimizeResult × List Tensor) :=
  match closure with
  | ClosureArg.notCallable => Except.error (Err.valueError "Callable object expected.")
  | ClosureArg.callableFn f =>
    let initial_params := initial_parameters vars
    let func := eval_func f step_callback
    Except.ok (solver func initial_params true scipy_kwargs vars)

/-- Run a sequence of evaluation calls against the tensor state, as the
external solver does: each successful call replaces the state with the
tensors it unpacked; a raising call would abort the solver, leaving the
state of the last successful call. -/
def runEvalCalls
    (func : List Val → List Tensor → Except Err (List Tensor × List Event × EvalOutcome)) :
    List (List Val) → List Tensor → List Tensor
  | [], vars => vars
  | x :: xs, vars =>
    match func x vars with
    | Except.ok (vars2, _, _) => runEvalCalls func xs vars2
    | Except.error _ => vars

/-- A solver that makes a fixed script of evaluation calls and then
returns a fixed result object. -/
def scriptedSolver (calls : List (List Val)) (ret : OptimizeResult) : Solver :=
  fun func _x0 _jac _kwargs vars => (ret, runEvalCalls func calls vars)

/-- All evaluation calls of a script succeed when threaded through the
tensor state in order. -/
def evalCallsOk
    (func : List Val → List Tensor → Except Err (List Tensor × List Event × EvalOutcome)) :
    List (List Val) → List Tensor → Bool
  | [], _ => true
  | x :: xs, vars =>
    match func x vars with
    | Except.ok (vars2, _, _) => evalCallsOk func xs vars2
    | Except.error _ => false

theorem runEvalCalls_append
    (func : List Val → List Tensor → Except Err (List Tensor × List Event × EvalOutcome))
    (xs ys : List (List Val)) :
    ∀ vars, evalCallsOk func xs vars = true →
      runEvalCalls func (xs ++ ys) vars
        = runEvalCalls func ys (runEvalCalls func xs vars) := by
  induction xs with
  | nil => intro vars _; rfl
  | cons x xs ih =>
    intro vars hok
    show (match func x vars with
      | Except.ok (v2, _, _) => runEvalCalls func (xs ++ ys) v2
      | Except.error _ => vars)
      = runEvalCalls func ys (match func x vars with
        | Except.ok (v2, _, _) => runEvalCalls func xs v2
        | Except.error _ => vars)
    have hok2 : (match func x vars with
      | Except.ok (vars2, _, _) => evalCallsOk func xs vars2
      | Except.error _ => false) = true := hok
    cases hf : func x vars with
    | ok r =>
      obtain ⟨v2, evs, out⟩ := r
      rw [hf] at hok2
      simp only [ih v2 hok2]
    | error e =>
      rw [hf] at hok2
      exact absurd hok2 (by simp)

/-- C1: for every sequence of tensors, unpacking the packed vector restores
each tensor's original shape and values exactly; and for every flat vector
whose length equals the sum of the tensors' element counts, packing the
unpacked tensors yields the vector back. -/
theorem round_trip_pack_unpack :
    (∀ ts : List Tensor, (∀ t ∈ ts, WellFormed t) →
        unpack_tensors ts (pack_tensors ts) = some ts) ∧
    (∀ (ts : List Tensor) (v : List Val), v.length = totalSize ts →
        ∃ us, unpack_tensors ts v = some us ∧ pack_tensors us = v) := by
  constructor
  · intro ts hwf
    exact unpack_loop_pack ts (pack_tensors ts) [] 0 hwf (by simp)
  · intro ts v hlen
    obtain ⟨us, hus, -, hpack⟩ := unpack_loop_success ts v 0 (by simp [hlen])
    refine ⟨us, hus, ?_⟩
    rw [hpack]
    simp [← hlen]

theorem round_trip_pack_unpack_witness :
    unpack_tensors [⟨[2], [1, 2]⟩] (pack_tensors [⟨[2], [1, 2]⟩]) = some [⟨[2], [1, 2]⟩] ∧
    ∃ us, unpack_tensors [⟨[2], [1, 2]⟩] [7, 8] = some us ∧ pack_tensors us = [7, 8] :=
  ⟨round_trip_pack_unpack.1 [⟨[2], [1, 2]⟩] (by decide),
   round_trip_pack_unpack.2 [⟨[2], [1, 2]⟩] [7, 8] (by decide)⟩

/-- C2: the packed vector is one flat list whose length is the sum of the
element counts, laid out in concatenation order; packing shapes
`[(2,2), (3,)]` yields length 7, and unpacking a length-7 vector restores
shapes `(2,2)` and `(3,)`. -/
theorem flat_vector_length :
    (∀ ts : List Tensor, (∀ t ∈ ts, WellFormed t) →
        (pack_tensors ts).length = totalSize ts) ∧
    (∀ t1 t2 : Tensor, t1.shape = [2, 2] → t2.shape = [3] →
        WellFormed t1 → WellFormed t2 → (pack_tensors [t1, t2]).length = 7) ∧
    (∀ (t1 t2 : Tensor) (v : List Val), t1.shape = [2, 2] → t2.shape = [3] →
        v.length = 7 →
        ∃ u1 u2, unpack_tensors [t1, t2] v = some [u1, u2] ∧
          u1.shape = [2, 2] ∧ u2.shape = [3]) := by
  have part1 : ∀ ts : List Tensor, (∀ t ∈ ts, WellFormed t) →
      (pack_tensors ts).length = totalSize ts := by
    intro ts
    induction ts with
    | nil => intro _; rfl
    | cons t ts ih =>
      intro hwf
      have hwt : t.data.length = tensorSize t := hwf t (List.mem_cons_self t ts)
      have htot : totalSize (t :: ts) = tensorSize t + totalSize ts := by
        unfold totalSize; simp
      rw [pack_tensors_cons, List.length_append,
        ih (fun u hu => hwf u (List.mem_cons_of_mem t hu)), hwt, htot]
  refine ⟨part1, ?_, ?_⟩
  · intro t1 t2 h1 h2 hw1 hw2
    have hmem : ∀ t ∈ [t1, t2], WellFormed t := by
      intro u hu
      simp only [List.mem_cons, List.not_mem_nil, or_false] at hu
      rcases hu with rfl | rfl
      · exact hw1
      · exact hw2
    rw [part1 [t1, t2] hmem]
    simp [totalSize, tensorSize, h1, h2]
  · intro t1 t2 v h1 h2 hlen
    have htot : totalSize [t1, t2] = 7 := by
      simp [totalSize, tensorSize, h1, h2]
    obtain ⟨us, hus, hshapes, -⟩ :=
      unpack_loop_success [t1, t2] v 0 (by simp [htot, hlen])
    simp only [List.map_cons, List.map_nil, h1, h2] at hshapes
    cases us with
    | nil => exact absurd hshapes (by simp)
    | cons u1 us1 =>
      cases us1 with
      | nil => exact absurd hshapes (by simp)
      | cons u2 us2 =>
        cases us2 with
        | cons u3 us3 => exact absurd hshapes (by simp)
        | nil =>
          simp only [List.map_cons, List.map_nil, List.cons.injEq, and_true] at hshapes
          exact ⟨u1, u2, hus, hshapes.1, hshapes.2⟩

theorem flat_vector_length_witness :
    (pack_tensors [⟨[2], [1, 2]⟩]).length = totalSize [⟨[2], [1, 2]⟩] ∧
    (pack_tensors [⟨[2, 2], [1, 2, 3, 4]⟩, ⟨[3], [5, 6, 7]⟩]).length = 7 ∧
    ∃ u1 u2,
      unpack_tensors [⟨[2, 2], [1, 2, 3, 4]⟩, ⟨[3], [5, 6, 7]⟩] [0, 1, 2, 3, 4, 5, 6]
        = some [u1, u2] ∧ u1.shape = [2, 2] ∧ u2.shape = [3] :=
  ⟨flat_vector_length.1 [⟨[2], [1, 2]⟩] (by decide),
   flat_vector_length.2.1 ⟨[2, 2], [1, 2, 3, 4]⟩ ⟨[3], [5, 6, 7]⟩ rfl rfl
     (by decide) (by decide),
   flat_vector_length.2.2 ⟨[2, 2], [1, 2, 3, 4]⟩ ⟨[3], [5, 6, 7]⟩
     [0, 1, 2, 3, 4, 5, 6] rfl rfl rfl⟩

/-- C7 counterexample: a flat vector that is LONGER than the sum of the
tensor sizes (length 2 against total size 1) does not make
`unpack_tensors` fail; unpacking completes, assigning every tensor and
ignoring the trailing elements. -/
theorem unpack_size_mismatch_counterexample :
    (2 : Nat) ≠ totalSize [Tensor.mk [1] [0]] ∧
    ([5, 6] : List Val).length = 2 ∧
    unpack_tensors [Tensor.mk [1] [0]] [5, 6] = some [Tensor.mk [1] [5]] := by
  decide

/-- C7 amended: `unpack_tensors` fails when the flat vector is strictly
shorter than the sum of the tensors' element counts; when the vector is at
least that long (including any longer vector), unpacking completes,
assigning all tensors and ignoring the extra tail. -/
theorem unpack_size_mismatch_amended :
    (∀ (ts : List Tensor) (v : List Val), v.length < totalSize ts →
        unpack_tensors ts v = none) ∧
    (∀ (ts : List Tensor) (v : List Val), totalSize ts ≤ v.length →
        (unpack_tensors ts v).isSome = true) := by
  constructor
  · intro ts v h
    exact unpack_loop_short ts v 0 (by simpa)
  · intro ts v h
    obtain ⟨us, hus, -, -⟩ := unpack_loop_success ts v 0 (by simpa)
    unfold unpack_tensors
    rw [hus]
    rfl

theorem unpack_size_mismatch_amended_witness :
    unpack_tensors [Tensor.mk [2] [0, 0]] [5] = none ∧
    (unpack_tensors [Tensor.mk [2] [0, 0]] [5, 6, 7]).isSome = true :=
  ⟨unpack_size_mismatch_amended.1 [Tensor.mk [2] [0, 0]] [5] (by decide),
   unpack_size_mismatch_amended.2 [Tensor.mk [2] [0, 0]] [5, 6, 7] (by decide)⟩

/-- C3: with a non-callable closure, `minimize` raises the `ValueError`
"Callable object expected." regardless of the tensors, the callback, the
options and the solver (so before any solver interaction and before the
initial flat vector is consulted); with a callable closure, `minimize`
itself raises no error. -/
theorem minimize_callable_check :
    (∀ (vars : List Tensor) (cb : CbArg) (kw : ScipyKwargs) (solver : Solver),
        minimize ClosureArg.notCallable vars cb kw solver
          = Except.error (Err.valueError "Callable object expected.")) ∧
    (∀ (f : LossGradFn) (vars : List Tensor) (cb : CbArg) (kw : ScipyKwargs)
        (solver : Solver),
        ∃ r, minimize (ClosureArg.callableFn f) vars cb kw solver = Except.ok r) :=
  ⟨fun _ _ _ _ => rfl,
   fun f vars cb kw solver =>
     ⟨solver (eval_func f cb) (initial_parameters vars) true kw vars, rfl⟩⟩

/-- C4: each evaluation call unpacks the candidate vector into the
parameter tensors, invokes the loss/gradient computation on the updated
tensors, invokes the observer callback (when supplied) with that loss,
those parameters and those gradients, and returns the scalar loss paired
with the gradients packed into one flat vector. -/
theorem eval_func_order (lg : LossGradFn)
    (c : Val → List Tensor → List Tensor → Except Err Unit)
    (x : List Val) (vars vars2 grads : List Tensor) (loss : Val)
    (h1 : unpack_tensors vars x = some vars2)
    (h2 : lg vars2 = Except.ok (loss, grads))
    (h3 : c loss vars2 grads = Except.ok ()) :
    eval_func lg (CbArg.callableCb c) x vars
      = Except.ok (vars2, [Event.callbackCall loss vars2 grads],
          ⟨loss, pack_tensors grads⟩) ∧
    eval_func lg CbArg.noCallback x vars
      = Except.ok (vars2, [], ⟨loss, pack_tensors grads⟩) := by
  constructor
  · simp only [eval_func, h1, h2, invoke_callback, h3]
  · simp only [eval_func, h1, h2, invoke_callback]

theorem eval_func_order_witness :
    eval_func (fun vs => Except.ok ((5 : Val), vs))
        (CbArg.callableCb (fun _ _ _ => Except.ok ())) [3] [⟨[1], [0]⟩]
      = Except.ok ([⟨[1], [3]⟩],
          [Event.callbackCall 5 [⟨[1], [3]⟩] [⟨[1], [3]⟩]], ⟨5, [3]⟩) ∧
    eval_func (fun vs => Except.ok ((5 : Val), vs)) CbArg.noCallback [3] [⟨[1], [0]⟩]
      = Except.ok ([⟨[1], [3]⟩], [], ⟨5, [3]⟩) :=
  eval_func_order (fun vs => Except.ok ((5 : Val), vs)) (fun _ _ _ => Except.ok ())
    [3] [⟨[1], [0]⟩] [⟨[1], [3]⟩] [⟨[1], [3]⟩] 5 rfl rfl rfl

/-- C5: when a callable observer is supplied, each successful evaluation
call invokes it exactly once, with the loss, parameter tensors and
gradients of that same evaluation (the tensors just unpacked from the
candidate vector and the loss/gradients computed on them). -/
theorem step_callback_once (lg : LossGradFn)
    (c : Val → List Tensor → List Tensor → Except Err Unit)
    (x : List Val) (vars vars2 grads : List Tensor) (loss : Val)
    (res : List Tensor × List Event × EvalOutcome)
    (h1 : unpack_tensors vars x = some vars2)
    (h2 : lg vars2 = Except.ok (loss, grads))
    (hres : eval_func lg (CbArg.callableCb c) x vars = Except.ok res) :
    res.2.1 = [Event.callbackCall loss vars2 grads] := by
  cases hc : c loss vars2 grads with
  | ok u =>
    simp only [eval_func, h1, h2, invoke_callback, hc] at hres
    rw [← Except.ok.inj hres]
  | error e =>
    simp only [eval_func, h1, h2, invoke_callback, hc] at hres
    exact Except.noConfusion hres

theorem step_callback_once_witness :
    (([⟨[1], [3]⟩], [Event.callbackCall 5 [⟨[1], [3]⟩] [⟨[1], [3]⟩]],
        (⟨5, [3]⟩ : EvalOutcome)) :
          List Tensor × List Event × EvalOutcome).2.1
      = [Event.callbackCall (5 : Val) [⟨[1], [3]⟩] [⟨[1], [3]⟩]] :=
  step_callback_once (fun vs => Except.ok ((5 : Val), vs)) (fun _ _ _ => Except.ok ())
    [3] [⟨[1], [0]⟩] [⟨[1], [3]⟩] [⟨[1], [3]⟩] 5
    ([⟨[1], [3]⟩], [Event.callbackCall 5 [⟨[1], [3]⟩] [⟨[1], [3]⟩]], ⟨5, [3]⟩)
    rfl rfl rfl

/-- C6: with a callable closure, `minimize` packs the current tensor
values into the initial flat vector, delegates to the external solver with
`jac = true` and the caller's options forwarded verbatim, and returns the
solver's result object unmodified. -/
theorem minimize_delegates (f : LossGradFn) (vars : List Tensor) (cb : CbArg)
    (kw : ScipyKwargs) (solver : Solver) :
    minimize (ClosureArg.callableFn f) vars cb kw solver
      = Except.ok (solver (eval_func f cb) (initial_parameters vars) true kw vars) ∧
    initial_parameters vars = pack_tensors vars :=
  ⟨rfl, rfl⟩

/-- C8: an error raised by the loss/gradient computation, or by the
observer callback, propagates out of the evaluation closure unchanged; the
closure performs no catching or recovery. -/
theorem errors_propagate :
    (∀ (lg : LossGradFn) (cb : CbArg) (x : List Val) (vars vars2 : List Tensor)
        (e : Err),
        unpack_tensors vars x = some vars2 → lg vars2 = Except.error e →
        eval_func lg cb x vars = Except.error e) ∧
    (∀ (lg : LossGradFn) (c : Val → List Tensor → List Tensor → Except Err Unit)
        (x : List Val) (vars vars2 grads : List Tensor) (loss : Val) (e : Err),
        unpack_tensors vars x = some vars2 → lg vars2 = Except.ok (loss, grads) →
        c loss vars2 grads = Except.error e →
        eval_func lg (CbArg.callableCb c) x vars = Except.error e) := by
  constructor
  · intro lg cb x vars vars2 e h1 h2
    simp only [eval_func, h1, h2]
  · intro lg c x vars vars2 grads loss e h1 h2 h3
    simp only [eval_func, h1, h2, invoke_callback, h3]

theorem errors_propagate_witness :
    eval_func (fun _ => Except.error (Err.user 1)) CbArg.noCallback [3] [⟨[1], [0]⟩]
      = Except.error (Err.user 1) ∧
    eval_func (fun vs => Except.ok ((5 : Val), vs))
        (CbArg.callableCb (fun _ _ _ => Except.error (Err.user 2))) [3] [⟨[1], [0]⟩]
      = Except.error (Err.user 2) :=
  ⟨errors_propagate.1 (fun _ => Except.error (Err.user 1)) CbArg.noCallback
     [3] [⟨[1], [0]⟩] [⟨[1], [3]⟩] (Err.user 1) rfl rfl,
   errors_propagate.2 (fun vs => Except.ok ((5 : Val), vs))
     (fun _ _ _ => Except.error (Err.user 2))
     [3] [⟨[1], [0]⟩] [⟨[1], [3]⟩] [⟨[1], [3]⟩] 5 (Err.user 2) rfl rfl rfl⟩

/-- C9: `minimize` returns the solver's result with the tensor state
exactly as the solver's evaluation calls left it: no write-back of the
solver's final vector happens, the final tensor state is independent of
the result object the solver returns, and after a last successful
evaluation call the tensors hold precisely the values that call
unpacked. -/
theorem no_write_back (f : LossGradFn) (cb : CbArg) (vars : List Tensor)
    (kw : ScipyKwargs) (calls : List (List Val)) (ret : OptimizeResult) :
    minimize (ClosureArg.callableFn f) vars cb kw (scriptedSolver calls ret)
      = Except.ok (ret, runEvalCalls (eval_func f cb) calls vars) ∧
    (∀ r1 r2 : OptimizeResult,
        (minimize (ClosureArg.callableFn f) vars cb kw
            (scriptedSolver calls r1)).map Prod.snd
          = (minimize (ClosureArg.callableFn f) vars cb kw
              (scriptedSolver calls r2)).map Prod.snd) ∧
    (∀ (x : List Val) (vars2 : List Tensor) (evs : List Event) (out : EvalOutcome),
        evalCallsOk (eval_func f cb) calls vars = true →
        eval_func f cb x (runEvalCalls (eval_func f cb) calls vars)
          = Except.ok (vars2, evs, out) →
        runEvalCalls (eval_func f cb) (calls ++ [x]) vars = vars2) := by
  refine ⟨rfl, fun r1 r2 => rfl, ?_⟩
  intro x vars2 evs out hok heval
  rw [runEvalCalls_append (eval_func f cb) calls [x] vars hok]
  show (match eval_func f cb x (runEvalCalls (eval_func f cb) calls vars) with
    | Except.ok (v2, _, _) => runEvalCalls (eval_func f cb) [] v2
    | Except.error _ => runEvalCalls (eval_func f cb) calls vars) = vars2
  rw [heval]
  rfl

theorem no_write_back_witness :
    runEvalCalls (eval_func (fun vs => Except.ok ((0 : Val), vs)) CbArg.noCallback)
        ([[7]] ++ [[4]]) [⟨[1], [0]⟩] = [⟨[1], [4]⟩] :=
  (no_write_back (fun vs => Except.ok ((0 : Val), vs)) CbArg.noCallback [⟨[1], [0]⟩]
      [] [[7]] ⟨[], 0⟩).2.2 [4] [⟨[1], [4]⟩] [] ⟨0, [4]⟩ rfl rfl

/-- C10: a supplied but non-callable `step_callback` is silently skipped:
the evaluation behaves exactly as with no callback at all, and a
successful evaluation performs no callback invocation. -/
theorem notcallable_callback_skipped (lg : LossGradFn) (x : List Val)
    (vars : List Tensor) :
    eval_func lg CbArg.notCallable x vars = eval_func lg CbArg.noCallback x vars ∧
    (∀ res, eval_func lg CbArg.notCallable x vars = Except.ok res →
        res.2.1 = ([] : List Event)) := by
  constructor
  · unfold eval_func
    cases unpack_tensors vars x with
    | none => rfl
    | some vars2 =>
      cases lg vars2 with
      | error e => rfl
      | ok p =>
        obtain ⟨loss, grads⟩ := p
        rfl
  · intro res hres
    cases hu : unpack_tensors vars x with
    | none =>
      simp only [eval_func, hu] at hres
      exact Except.noConfusion hres
    | some vars2 =>
      cases hl : lg vars2 with
      | error e =>
        simp only [eval_func, hu, hl] at hres
        exact Except.noConfusion hres
      | ok p =>
        obtain ⟨loss, grads⟩ := p
        simp only [eval_func, hu, hl, invoke_callback] at hres
        rw [← Except.ok.inj hres]

theorem notcallable_callback_skipped_witness :
    (eval_func (fun vs => Except.ok ((5 : Val), vs)) CbArg.notCallable [3] [⟨[1], [0]⟩]
       = eval_func (fun vs => Except.ok ((5 : Val), vs)) CbArg.noCallback
           [3] [⟨[1], [0]⟩]) ∧
    (([⟨[1], [3]⟩], ([] : List Event), (⟨5, [3]⟩ : EvalOutcome)) :
        List Tensor × List Event × EvalOutcome).2.1 = ([] : List Event) :=
  ⟨(notcallable_callback_skipped (fun vs => Except.ok ((5 : Val), vs))
      [3] [⟨[1], [0]⟩]).1,
   (notcallable_callback_skipped (fun vs => Except.ok ((5 : Val), vs))
      [3] [⟨[1], [0]⟩]).2
     ([⟨[1], [3]⟩], [], ⟨5, [3]⟩) rfl⟩

end GPflowScipy
